import Mathlib

/-!
Shallow embedding of the multi-file merge engine of `src/tools/file_merger.py`
(`merge_files_advanced` and `preview_common_columns`), together with theorems
settling the specification claims about it.

Modelling conventions:
* A pandas `DataFrame` read with `dtype=str` is a `DF`: an ordered list of
  column names plus row-major cells; a cell is `Option String`, `none`
  modelling a pandas missing value (`NaN`).
* A `(BytesIO, filename)` input pair is a `RawFile`: the filename plus the
  outcome each reader (`pd.read_csv` with its encoding fallback,
  `pd.ExcelFile`) would have on those bytes.  This captures exactly the
  observable behaviour of the loading code, which never inspects the bytes
  other than through those readers.
* The serializer is modelled as the identity on the merged table: the first
  component of the returned triple is the merged `DF` itself (byte-level
  CSV/xlsx encoding is outside the algorithmic core).
* Python `str.lower` / `str.strip` / `str.upper` are modelled for the ASCII
  range by `lowerStr` / `trimStr` / `upperStr`.
* A Python `set` of strings is modelled as a duplicate-free list (`pySet`);
  Python fixes no iteration order for sets, the realization here keeps the
  first occurrence in insertion order.  All theorems about sets use only
  membership, except where a singleton set makes every order coincide.
-/

set_option linter.unusedVariables false

deriving instance DecidableEq for Except

namespace MultiIQ

/-- A table cell: `none` models a pandas missing value (NaN). -/
abbrev Cell := Option String

/-- An in-memory table (pandas `DataFrame` with `dtype=str`): ordered column
names plus row-major cells. -/
structure DF where
  cols : List String
  rows : List (List Cell)
deriving DecidableEq

/-- Python `str.lower` (ASCII range). -/
def lowerStr (s : String) : String := ⟨s.data.map Char.toLower⟩

/-- Python `str.upper` (ASCII range). -/
def upperStr (s : String) : String := ⟨s.data.map Char.toUpper⟩

/-- Python `str.strip`: drop leading and trailing whitespace. -/
def trimStr (s : String) : String :=
  ⟨((s.data.dropWhile Char.isWhitespace).reverse.dropWhile Char.isWhitespace).reverse⟩

/-- One step of Python `str.title`: the boolean says whether the previous
character was alphabetic. -/
def titleChars : Bool → List Char → List Char
  | _, [] => []
  | prev, c :: cs =>
    (if prev then Char.toLower c else Char.toUpper c) :: titleChars c.isAlpha cs

/-- Python `str.title` (ASCII approximation). -/
def titleStr (s : String) : String := ⟨titleChars false s.data⟩

/-- `filename.lower().endswith(".csv")`, on the character lists. -/
def endsWithStr (s t : String) : Bool := t.data.isSuffixOf s.data

/-- Reading the cell of column `c` in a row: pandas label-based access takes
the first column carrying the label; a label that is absent (used only by
`pd.concat` alignment) yields `NaN`. -/
def cellAt : List String → List Cell → String → Cell
  | [], _, _ => none
  | c' :: cs, row, c => if c' = c then row.headD none else cellAt cs row.tail c

/-- The cells of column `c`, row by row. -/
def DF.col (df : DF) (c : String) : List Cell :=
  df.rows.map (fun r => cellAt df.cols r c)

/-- pandas `df.empty` (some axis has length zero). -/
def DF.isEmptyDF (df : DF) : Bool := df.rows.isEmpty || df.cols.isEmpty

/-- pandas `df[cs]`: keep the listed columns, in the listed order. -/
def DF.select (df : DF) (cs : List String) : DF :=
  ⟨cs, df.rows.map (fun r => cs.map (cellAt df.cols r))⟩

/-- pandas `df.rename(columns=m)` for an association list `m`. -/
def DF.rename (df : DF) (m : List (String × String)) : DF :=
  ⟨df.cols.map (fun c => ((m.find? (fun p => p.1 == c)).map Prod.snd).getD c), df.rows⟩

/-- One row of `df[c] = v`: the cell of every column labelled `c` is replaced
by `v`; the row is kept positionally aligned with the columns. -/
def assignRow (cols : List String) (c : String) (v : Cell) (row : List Cell) : List Cell :=
  match cols with
  | [] => []
  | c' :: cs => (if c' = c then v else row.headD none) :: assignRow cs c v row.tail

/-- pandas `df[c] = v` with a scalar `v`: overwrite the column if the label
exists, otherwise append a new column. -/
def DF.assign (df : DF) (c : String) (v : Cell) : DF :=
  if c ∈ df.cols then ⟨df.cols, df.rows.map (assignRow df.cols c v)⟩
  else
    ⟨df.cols ++ [c],
     df.rows.map (fun r =>
       (r.take df.cols.length ++ List.replicate (df.cols.length - r.length) none) ++ [v])⟩

/-- Column names surviving `df.loc[:, ~df.columns.duplicated()]`: keep the
first occurrence of every name. -/
def dedupNames (seen : List String) : List String → List String
  | [] => []
  | c :: cs => if c ∈ seen then dedupNames seen cs else c :: dedupNames (c :: seen) cs

/-- One row of `df.loc[:, ~df.columns.duplicated()]`. -/
def dedupRow (seen : List String) : List String → List Cell → List Cell
  | [], _ => []
  | c :: cs, row =>
    if c ∈ seen then dedupRow seen cs row.tail
    else row.headD none :: dedupRow (c :: seen) cs row.tail

/-- Lines 59-60 of the source: drop later duplicate column names, but only
when a duplicate exists (`if df.columns.duplicated().any()`). -/
def DF.dedupCols (df : DF) : DF :=
  if df.cols.Nodup then df
  else ⟨dedupNames [] df.cols, df.rows.map (dedupRow [] df.cols)⟩

/-- Apply a cell transform to every cell (the cleaning loops iterate all
object-dtype columns, which under `dtype=str` is every column). -/
def mapCells (f : Cell → Cell) (df : DF) : DF :=
  ⟨df.cols, df.rows.map (fun r => r.map f)⟩

/-- The `casing` cleaning step on one cell (`.str.upper/lower/title`
leave `NaN` untouched); an unknown casing value falls through the
`if/elif` chain and changes nothing. -/
def applyCase (casing : String) (v : Cell) : Cell :=
  if casing = "upper" then v.map upperStr
  else if casing = "lower" then v.map lowerStr
  else if casing = "title" then v.map titleStr
  else v

/-- Generic keep-first-per-key de-duplication, the accumulator being the
Python `seen` set of keys. -/
def dedupByKeyAux (key : String → String) (seen : List String) :
    List String → List String
  | [] => []
  | c :: cs =>
    if key c ∈ seen then dedupByKeyAux key seen cs
    else c :: dedupByKeyAux key (key c :: seen) cs

/-- Keep the first element for every key, in order of first appearance. -/
def dedupByKey (key : String → String) (l : List String) : List String :=
  dedupByKeyAux key [] l

/-- A Python `set` built from a list of strings, realized as a duplicate-free
list (set iteration order is unspecified in Python; this realization keeps
first occurrences). -/
def pySet (l : List String) : List String := dedupByKey (fun c => c) l

/-- `set.intersection(*sets)` (membership-faithful realization). -/
def intersectAll : List (List String) → List String
  | [] => []
  | s :: ss => ss.foldl (fun a b => a.filter (fun c => c ∈ b)) s

/-- The comparison key of a column name: lower-cased when matching is
case-insensitive. -/
def keyOf (ci : Bool) (c : String) : String := if ci then lowerStr c else c

/-- Lines 83-86: the per-table column set used by the stack reconciler,
excluding the provenance column, lower-cased when case-insensitive. -/
def columnSet (ci : Bool) (df : DF) : List String :=
  pySet ((df.cols.filter (fun c => c ≠ "Source_File")).map (keyOf ci))

/-- Outcome of the CSV read path (lines 35-40): UTF-8(-sig) succeeds, or the
first read raises `UnicodeDecodeError` and the latin-1 fallback succeeds, or
the read path raises (message carried for the top-level handler). -/
inductive CsvRead where
  | utf8 (df : DF)
  | latin1 (df : DF)
  | fails (msg : String)
deriving DecidableEq

/-- Outcome of `pd.ExcelFile(buffer)` plus per-sheet reads (lines 43-45):
pandas sniffs the *content*, so this is independent of the filename. -/
inductive ExcelRead where
  | ok (sheets : List DF)
  | fails (msg : String)
deriving DecidableEq

/-- One `(BytesIO, filename)` input pair, described by the outcome each
reader would have on its bytes. -/
structure RawFile where
  name : String
  csv : CsvRead
  excel : ExcelRead
deriving DecidableEq

/-- The keyword arguments of `merge_files_advanced`, with their defaults. -/
structure Config where
  strategy : String := "intersection"
  case_insensitive : Bool := false
  remove_duplicates : Bool := false
  all_sheets : Bool := false
  selected_columns : Option (List String) := none
  trim_whitespace : Bool := false
  casing : String := "none"
  include_source_col : Bool := true
  join_mode : String := "stack"
  join_key : Option String := none
deriving DecidableEq

/-- Lines 30-45: dispatch on the filename extension; `.csv` goes to
`pd.read_csv` with the encoding fallback, anything else goes to
`pd.ExcelFile` (which sniffs content); `sheet_names[0]` on an empty workbook
raises an index error. Errors abort the whole loop (caught at line 187). -/
def readFile (allSheets : Bool) (f : RawFile) : Except String (List DF) :=
  if endsWithStr (lowerStr f.name) ".csv" then
    match f.csv with
    | .utf8 df => .ok [df]
    | .latin1 df => .ok [df]
    | .fails m => .error m
  else
    match f.excel with
    | .fails m => .error m
    | .ok sheets =>
      if allSheets then .ok sheets
      else
        match sheets with
        | [] => .error "list index out of range"
        | s :: _ => .ok [s]

/-- Lines 47-76 for one table: skip empty tables, strip column names, tag the
provenance column (stack mode only), drop duplicate column names, run the
cleaning transforms.  `none` means the table was skipped as empty. -/
def prepDF (cfg : Config) (filename : String) (df0 : DF) : Option DF :=
  if df0.isEmptyDF then none
  else
    let df1 : DF := ⟨df0.cols.map trimStr, df0.rows⟩
    let df2 :=
      if cfg.include_source_col && (cfg.join_mode = "stack" : Bool) then
        df1.assign "Source_File" (some filename)
      else df1
    let df3 := df2.dedupCols
    let df4 := if cfg.trim_whitespace then mapCells (Option.map trimStr) df3 else df3
    let df5 := if cfg.casing ≠ "none" then mapCells (applyCase cfg.casing) df4 else df4
    some df5

/-- The loading loop (lines 30-76): process the files in order, collecting
the prepared tables; the first reader exception aborts the whole loop. -/
def loadFiles (cfg : Config) : List RawFile → Except String (List DF)
  | [] => .ok []
  | f :: fs =>
    match readFile cfg.all_sheets f with
    | .error m => .error m
    | .ok ds =>
      match loadFiles cfg fs with
      | .error m => .error m
      | .ok rest => .ok (ds.filterMap (prepDF cfg f.name) ++ rest)

/-- Lines 88-99 intersection master columns: the first table's columns (minus
the provenance column) whose key lies in every table's column set, keeping
the first table's order and spelling. -/
def masterInter (ci : Bool) (d : DF) (ds : List DF) : List String :=
  (d.cols.filter (fun c => c ≠ "Source_File")).filter
    (fun c => keyOf ci c ∈ intersectAll ((d :: ds).map (columnSet ci)))

/-- Lines 100-109 union master columns: every column in first-seen key order
scanning the tables in input sequence, keeping first spellings. -/
def masterUnion (ci : Bool) (dfs : List DF) : List String :=
  dedupByKey (keyOf ci) (dfs.flatMap (fun df => df.cols.filter (fun c => c ≠ "Source_File")))

/-- Lines 111-116: the `selected_columns` allow-list filter (a `None` or
empty list is falsy and skipped); when case-insensitive both sides are
lower-cased before comparison. -/
def applySelected (cfg : Config) (master : List String) : List String :=
  match cfg.selected_columns with
  | none => master
  | some sel =>
    if sel.isEmpty then master
    else if cfg.case_insensitive then
      master.filter (fun c => lowerStr c ∈ sel.map lowerStr)
    else
      master.filter (fun c => c ∈ sel)

/-- Lines 121-127: the case-insensitive rename map of one table — each
non-provenance column maps to the first master column with the same
lower-cased name, if any. -/
def renameMapCi (master : List String) (cols : List String) : List (String × String) :=
  (cols.filter (fun c => c ≠ "Source_File")).filterMap
    (fun c => (master.find? (fun m => lowerStr c == lowerStr m)).map (fun m => (c, m)))

/-- Lines 119-132 for one table: apply the rename map (case-insensitive mode
only), then keep the master columns present in the table, plus the
provenance column when enabled. -/
def stackFinal (cfg : Config) (master : List String) (df : DF) : DF :=
  let df' := if cfg.case_insensitive then df.rename (renameMapCi master df.cols) else df
  df'.select
    (master.filter (fun c => c ∈ df'.cols) ++
      (if cfg.include_source_col then ["Source_File"] else []))

/-- The column list of `pd.concat(dfs, ignore_index=True)` (`sort=False`
default): first frame's columns, then unseen columns in order of
appearance. -/
def concatCols (dfs : List DF) : List String :=
  dedupByKey (fun c => c) (dfs.flatMap (fun d => d.cols))

/-- `pd.concat(dfs, ignore_index=True)`: align every frame's rows to the
united column list, filling absent columns with `NaN`. -/
def pdConcat (dfs : List DF) : DF :=
  let cs := concatCols dfs
  ⟨cs, dfs.flatMap (fun d => d.rows.map (fun r => cs.map (cellAt d.cols r)))⟩

/-- Rows of `drop_duplicates(subset=keyCols)`: keep the first row for every
projection of the row to the key columns (pandas treats `NaN` keys as
equal, as does `Option.decEq`). -/
def dropDupRowsAux (keyCols : List String) (cols : List String)
    (seen : List (List Cell)) : List (List Cell) → List (List Cell)
  | [] => []
  | r :: rs =>
    let k := keyCols.map (cellAt cols r)
    if k ∈ seen then dropDupRowsAux keyCols cols seen rs
    else r :: dropDupRowsAux keyCols cols (k :: seen) rs

/-- Lines 135-137: de-duplicate the stacked table on all non-provenance
columns, keeping first occurrences. -/
def DF.dropDuplicates (df : DF) : DF :=
  ⟨df.cols,
   dropDupRowsAux (df.cols.filter (fun c => c ≠ "Source_File")) df.cols [] df.rows⟩

/-- Lines 81-137: the vertical stacking branch (`dfs` is non-empty here,
split as `d :: ds`). -/
def stackCombine (cfg : Config) (d : DF) (ds : List DF) : Except String DF :=
  let ci := cfg.case_insensitive
  if cfg.strategy = "intersection" ∧ intersectAll ((d :: ds).map (columnSet ci)) = [] then
    .error "No common columns found."
  else
    let master0 :=
      if cfg.strategy = "intersection" then masterInter ci d ds
      else masterUnion ci (d :: ds)
    let master := applySelected cfg master0
    let merged := pdConcat ((d :: ds).map (stackFinal cfg master))
    .ok (if cfg.remove_duplicates then merged.dropDuplicates else merged)

/-- Lines 145-155: locate the join key case-insensitively in the i-th table
(1-based, for the error message) and rename it to the canonical spelling. -/
def standardizeKeys (key : String) : Nat → List DF → Except String (List DF)
  | _, [] => .ok []
  | i, df :: rest =>
    match df.cols.find? (fun c => lowerStr c == lowerStr key) with
    | none => .error ("Key '" ++ key ++ "' not found in file " ++ toString i ++ ".")
    | some actual =>
      match standardizeKeys key (i + 1) rest with
      | .error m => .error m
      | .ok rest' => .ok ((if actual ≠ key then df.rename [(actual, key)] else df) :: rest')

/-- `pd.merge(l, r, on=key, how=how, suffixes=("", suffix))`: the left
columns keep their names, right non-key columns clashing with a left name
get the suffix; rows follow relational join semantics (inner: matching
pairs, left-major; left/right: unmatched rows padded with `NaN`; outer:
left-join rows plus unmatched right rows). -/
def pdMerge (l r : DF) (key how suffix : String) : DF :=
  let rKeep := r.cols.filter (fun c => c ≠ key)
  let outCols := l.cols ++ rKeep.map (fun c => if c ∈ l.cols then c ++ suffix else c)
  let lval := fun (lr : List Cell) => l.cols.map (cellAt l.cols lr)
  let rpart := fun (rr : List Cell) => rKeep.map (cellAt r.cols rr)
  let lpad := rKeep.map (fun _ => (none : Cell))
  let rOnly := fun (rr : List Cell) =>
    l.cols.map (fun c => if c = key then cellAt r.cols rr key else none) ++ rpart rr
  let kEq := fun (lr rr : List Cell) =>
    decide (cellAt l.cols lr key = cellAt r.cols rr key)
  let rows :=
    if how = "inner" then
      l.rows.flatMap (fun lr =>
        (r.rows.filter (fun rr => kEq lr rr)).map (fun rr => lval lr ++ rpart rr))
    else if how = "left" then
      l.rows.flatMap (fun lr =>
        let ms := r.rows.filter (fun rr => kEq lr rr)
        if ms.isEmpty then [lval lr ++ lpad]
        else ms.map (fun rr => lval lr ++ rpart rr))
    else if how = "right" then
      r.rows.flatMap (fun rr =>
        let ms := l.rows.filter (fun lr => kEq lr rr)
        if ms.isEmpty then [rOnly rr]
        else ms.map (fun lr => lval lr ++ rpart rr))
    else
      (l.rows.flatMap (fun lr =>
        let ms := r.rows.filter (fun rr => kEq lr rr)
        if ms.isEmpty then [lval lr ++ lpad]
        else ms.map (fun rr => lval lr ++ rpart rr))) ++
      (r.rows.filter (fun rr => l.rows.all (fun lr => ! kEq lr rr))).map rOnly
  ⟨outCols, rows⟩

/-- Lines 158-165: sequential pairwise merge with suffixes `_F2`, `_F3`, …;
pandas validates the join mode only when a merge actually runs. -/
def joinFold (key how : String) : Nat → DF → List DF → Except String DF
  | _, acc, [] => .ok acc
  | i, acc, r :: rest =>
    if how = "inner" ∨ how = "left" ∨ how = "right" ∨ how = "outer" then
      joinFold key how (i + 1) (pdMerge acc r key how ("_F" ++ toString i)) rest
    else .error ("Merge Error: '" ++ how ++ "' is not a valid merge mode")

/-- Lines 139-170: the horizontal join branch. -/
def joinCombine (cfg : Config) (d : DF) (ds : List DF) : Except String DF :=
  let key := cfg.join_key.getD ""
  if key = "" then .error "Join key is required for horizontal merge."
  else
    match standardizeKeys key 1 (d :: ds) with
    | .error m => .error m
    | .ok processed =>
      match processed with
      | [] => .error "Merge Error: no tables"
      | p :: ps =>
        match joinFold key cfg.join_mode 2 p ps with
        | .error m => .error m
        | .ok merged =>
          .ok (match cfg.selected_columns with
            | none => merged
            | some sel =>
              if sel.isEmpty then merged
              else merged.select
                (key :: merged.cols.filter (fun c => c ∈ sel ∧ c ≠ key)))

/-- Lines 81-170: dispatch between stacking and joining. -/
def combine (cfg : Config) (d : DF) (ds : List DF) : Except String DF :=
  if cfg.join_mode = "stack" then stackCombine cfg d ds else joinCombine cfg d ds

/-- `merge_files_advanced` (lines 8-189): the returned triple is
`(output table, output column list, filename-or-error-message)`; reader
exceptions are caught at line 187 and prefixed with `"Merge Error: "`.
The serialized buffer is modelled by the merged table itself. -/
def merge_files_advanced (files : List RawFile) (cfg : Config) :
    Option DF × Option (List String) × String :=
  if files.isEmpty then (none, none, "No files provided.")
  else
    match loadFiles cfg files with
    | .error m => (none, none, "Merge Error: " ++ m)
    | .ok [] => (none, none, "No valid data found.")
    | .ok (d :: ds) =>
      match combine cfg d ds with
      | .error m => (none, none, m)
      | .ok merged =>
        let anyExcel := files.any (fun f => ! endsWithStr (lowerStr f.name) ".csv")
        let ext := if anyExcel then ".xlsx" else ".csv"
        (some merged, some merged.cols, "merged_data_" ++ cfg.join_mode ++ ext)

/-- `df.rows.take n`, modelling the `nrows=5` capped preview reads. -/
def takeRows (n : Nat) (df : DF) : DF := ⟨df.cols, df.rows.take n⟩

/-- Lines 204-221: the preview loader — per-file failures are logged and
skipped (`continue`); only the first sheet is read, capped at 5 rows. -/
def previewLoad (f : RawFile) : Option DF :=
  if endsWithStr (lowerStr f.name) ".csv" then
    match f.csv with
    | .utf8 df => some (takeRows 5 df)
    | .latin1 df => some (takeRows 5 df)
    | .fails _ => none
  else
    match f.excel with
    | .ok [] => none
    | .ok (s :: _) => some (takeRows 5 s)
    | .fails _ => none

/-- Lines 204-231: scan the files (with their original indices), collecting
the per-table column sets, the first file's ordered columns and the sample
grid. -/
def previewScan (ci : Bool) : Nat → List RawFile →
    List (List String) × List String × List (List String)
  | _, [] => ([], [], [])
  | i, f :: fs =>
    match previewLoad f with
    | none => previewScan ci (i + 1) fs
    | some df =>
      let cols := df.cols.map trimStr
      let rest := previewScan ci (i + 1) fs
      (pySet (cols.map (keyOf ci)) :: rest.1,
       if i = 0 then cols else rest.2.1,
       if i = 0 then cols :: df.rows.map (fun r => r.map (fun v => v.getD "")) else rest.2.2)

/-- `preview_common_columns` (lines 191-250).  The union branch iterates the
per-table *sets*, so it collects set elements (lower-cased keys when
case-insensitive), not original header spellings. -/
def preview_common_columns (files : List RawFile) (strategy : String)
    (ci : Bool) (allSheets : Bool) : List String × List (List String) :=
  let scan := previewScan ci 0 files
  if scan.1.isEmpty then ([], [])
  else
    let common :=
      if strategy = "intersection" then
        scan.2.1.filter (fun c => keyOf ci c ∈ intersectAll scan.1)
      else
        dedupByKey (fun c => c) (scan.1.flatMap (fun s => s))
    (common, scan.2.2)

/-- Spec-side characterization (per spec §4.3, *not* translated from the
code — it is the comparison point for the refinement theorems): the
intersection-strategy master columns are the first table's non-provenance
columns whose comparison key occurs in every loaded table's non-provenance
column list, in first-table order and spelling. -/
def interMasterSpec (ci : Bool) (d : DF) (ds : List DF) : List String :=
  (d.cols.filter (fun c => c ≠ "Source_File")).filter
    (fun c => decide (∀ df ∈ d :: ds,
      keyOf ci c ∈ (df.cols.filter (fun c2 => c2 ≠ "Source_File")).map (keyOf ci)))

/-! ### Concrete inputs used by witnesses and counterexamples -/

/-- A CSV input whose bytes decode as UTF-8 into the given table (so the
spreadsheet reader would fail on them). -/
def csvFile (name : String) (cols : List String) (rows : List (List Cell)) : RawFile :=
  ⟨name, .utf8 ⟨cols, rows⟩, .fails "Excel file format cannot be determined"⟩

def w1Files : List RawFile :=
  [csvFile "a.csv" ["id", "name"] [[some "1", some "x"], [some "2", some "y"]],
   csvFile "b.csv" ["id", "email"] [[some "3", some "z"]]]

def w1Cfg : Config := { strategy := "union" }

def w1Dfs : List DF :=
  [⟨["id", "name", "Source_File"],
    [[some "1", some "x", some "a.csv"], [some "2", some "y", some "a.csv"]]⟩,
   ⟨["id", "email", "Source_File"], [[some "3", some "z", some "b.csv"]]⟩]

def w1Out : DF :=
  ⟨["id", "name", "Source_File", "email"],
   [[some "1", some "x", some "a.csv", none],
    [some "2", some "y", some "a.csv", none],
    [some "3", none, some "b.csv", some "z"]]⟩

def w3Files : List RawFile :=
  [csvFile "a.csv" ["ID", "Name"] [[some "1", some "x"]],
   csvFile "b.csv" ["id", "Name"] [[some "2", some "y"]]]

def w3Cfg : Config :=
  { strategy := "intersection", case_insensitive := true, include_source_col := false }

def w3D1 : DF := ⟨["ID", "Name"], [[some "1", some "x"]]⟩

def w3D2 : DF := ⟨["id", "Name"], [[some "2", some "y"]]⟩

def w3Out : DF := ⟨["ID", "Name"], [[some "1", some "x"], [some "2", some "y"]]⟩

def w4Files : List RawFile :=
  [csvFile "a.csv" ["id"] [[some "1"], [some "2"], [some "3"]],
   csvFile "b.csv" ["id"] [[some "2"], [some "3"], [some "4"]]]

def w4Cfg : Config := { join_mode := "inner", join_key := some "id" }

def w4D1 : DF := ⟨["id"], [[some "1"], [some "2"], [some "3"]]⟩

def w4D2 : DF := ⟨["id"], [[some "2"], [some "3"], [some "4"]]⟩

def w4Out : DF := ⟨["id"], [[some "2"], [some "3"]]⟩

def w5Cfg : Config :=
  { case_insensitive := true, selected_columns := some ["id"], include_source_col := false }

def w5Files : List RawFile := [csvFile "a.csv" ["ID"] [[some "1"]]]

def w5D : DF := ⟨["ID"], [[some "1"]]⟩

def w10File : RawFile :=
  csvFile "a.csv" ["A", "Source_File"] [[some "1", some "orig1"], [some "2", some "orig2"]]

def w10Out : DF :=
  ⟨["A", "Source_File"], [[some "1", some "a.csv"], [some "2", some "a.csv"]]⟩

/-! ### Helper lemmas -/

theorem data_append_ne (s t : String) (h : s.data ≠ []) : (s ++ t).data ≠ [] := by
  rw [String.data_append]
  intro he
  exact h (List.append_eq_nil.mp he).1

theorem ne_empty_of_data (s : String) (h : s.data ≠ []) : s ≠ "" := by
  intro he
  rw [he] at h
  exact h rfl

theorem length_flatMap_sum {α β : Type} (l : List α) (f : α → List β) :
    (l.flatMap f).length = (l.map (fun d => (f d).length)).sum := by
  induction l with
  | nil => rfl
  | cons x xs ih => simp [ih]

/-! ### C8: stack-mode de-duplication is idempotent -/

theorem dropDupRowsAux_idem (keyCols cols : List String) (rows : List (List Cell)) :
    ∀ seen : List (List Cell),
      dropDupRowsAux keyCols cols seen (dropDupRowsAux keyCols cols seen rows) =
        dropDupRowsAux keyCols cols seen rows := by
  induction rows with
  | nil => intro seen; rfl
  | cons r rs ih =>
    intro seen
    by_cases h : (keyCols.map (cellAt cols r)) ∈ seen
    · simp only [dropDupRowsAux, if_pos h]
      exact ih seen
    · have e1 : dropDupRowsAux keyCols cols seen (r :: rs)
          = r :: dropDupRowsAux keyCols cols ((keyCols.map (cellAt cols r)) :: seen) rs := by
        simp only [dropDupRowsAux, if_neg h]
      have e2 : ∀ rest, dropDupRowsAux keyCols cols seen (r :: rest)
          = r :: dropDupRowsAux keyCols cols ((keyCols.map (cellAt cols r)) :: seen) rest := by
        intro rest
        simp only [dropDupRowsAux, if_neg h]
      rw [e1, e2, ih]

/-- C8: the stack-mode de-duplication pass (`drop_duplicates` on all
non-provenance columns, keeping first occurrences) is idempotent: applied a
second time to its own output it changes neither the rows nor the row
count. -/
theorem c8_dedup_idempotent (df : DF) :
    df.dropDuplicates.dropDuplicates = df.dropDuplicates := by
  unfold DF.dropDuplicates
  simp only
  exact congrArg (fun rws => DF.mk df.cols rws) (dropDupRowsAux_idem _ _ df.rows [])

/-! ### C9: the returned triple's shape -/

theorem standardizeKeys_error_ne (key : String) (dfs : List DF) :
    ∀ (i : Nat) (m : String), standardizeKeys key i dfs = .error m → m ≠ "" := by
  induction dfs with
  | nil => intro i m h; simp [standardizeKeys] at h
  | cons df rest ih =>
    intro i m
    simp only [standardizeKeys]
    split
    · intro h
      cases h
      exact ne_empty_of_data _
        (data_append_ne _ _ (data_append_ne _ _ (data_append_ne _ _ (data_append_ne _ _ (by decide)))))
    · split
      · intro h
        cases h
        exact ih (i + 1) _ (by assumption)
      · intro h
        cases h

theorem joinFold_error_ne (key how : String) (rest : List DF) :
    ∀ (i : Nat) (acc : DF) (m : String), joinFold key how i acc rest = .error m → m ≠ "" := by
  induction rest with
  | nil => intro i acc m h; simp [joinFold] at h
  | cons r rs ih =>
    intro i acc m
    simp only [joinFold]
    split
    · exact ih _ _ m
    · intro h
      cases h
      exact ne_empty_of_data _ (data_append_ne _ _ (data_append_ne _ _ (by decide)))

theorem combine_error_ne (cfg : Config) (d : DF) (ds : List DF) :
    ∀ m : String, combine cfg d ds = .error m → m ≠ "" := by
  simp only [combine]
  split
  · simp only [stackCombine]
    split
    · intro m h; cases h; decide
    · intro m h; cases h
  · simp only [joinCombine]
    split
    · intro m h; cases h; decide
    · split
      · intro m h
        cases h
        exact standardizeKeys_error_ne _ _ _ _ (by assumption)
      · split
        · intro m h; cases h; decide
        · split
          · intro m h
            cases h
            exact joinFold_error_ne _ _ _ _ _ _ (by assumption)
          · intro m h; cases h

/-- C9: `merge_files_advanced` always returns a triple (every failure of the
loading and combination pipeline is mapped to a value, mirroring the
`except Exception` handler at line 187 — the Lean embedding is a total
function): on every failure path the first two components are `none` and the
third is a non-empty message, and on success the first two components are
populated and the third is the (non-empty) output filename. -/
theorem c9_result_shape (files : List RawFile) (cfg : Config) :
    ((merge_files_advanced files cfg).1 = none ∧
      (merge_files_advanced files cfg).2.1 = none ∧
      (merge_files_advanced files cfg).2.2 ≠ "") ∨
    (∃ df cs, (merge_files_advanced files cfg).1 = some df ∧
      (merge_files_advanced files cfg).2.1 = some cs ∧
      (merge_files_advanced files cfg).2.2 ≠ "") := by
  simp only [merge_files_advanced]
  split
  · exact Or.inl ⟨rfl, rfl, by decide⟩
  · split
    · exact Or.inl ⟨rfl, rfl, ne_empty_of_data _ (data_append_ne _ _ (by decide))⟩
    · exact Or.inl ⟨rfl, rfl, by decide⟩
    · rename_i d ds heq
      split
      · rename_i m hcomb
        exact Or.inl ⟨rfl, rfl, combine_error_ne cfg d ds m hcomb⟩
      · rename_i merged hcomb
        refine Or.inr ⟨merged, merged.cols, rfl, rfl, ?_⟩
        exact ne_empty_of_data _ (data_append_ne _ _ (data_append_ne _ _ (by decide)))

/-! ### C1: stack mode without de-duplication preserves the total row count -/

theorem select_rows_length (df : DF) (cs : List String) :
    (df.select cs).rows.length = df.rows.length := by
  simp [DF.select]

theorem stackFinal_rows_length (cfg : Config) (master : List String) (df : DF) :
    (stackFinal cfg master df).rows.length = df.rows.length := by
  by_cases hci : cfg.case_insensitive <;>
    simp [stackFinal, hci, DF.select, DF.rename]

theorem pdConcat_rows_length (dfs : List DF) :
    (pdConcat dfs).rows.length = (dfs.map (fun d => d.rows.length)).sum := by
  simp only [pdConcat, length_flatMap_sum, List.length_map]

theorem map_stackFinal_lengths (cfg : Config) (master : List String) (dfs : List DF) :
    dfs.map ((fun df => df.rows.length) ∘ stackFinal cfg master) =
      dfs.map (fun df => df.rows.length) := by
  induction dfs with
  | nil => rfl
  | cons x xs ih => simp [stackFinal_rows_length, ih]

/-- C1: in a stack-mode run with `remove_duplicates` disabled in which every
input loads successfully (`loadFiles` returns the prepared tables `dfs`,
zero-row tables already skipped), a successful merge's row count is the sum
of the loaded tables' row counts. -/
theorem c1_stack_rowcount (files : List RawFile) (cfg : Config) (dfs : List DF)
    (out : DF) (cs : Option (List String)) (nm : String)
    (hmode : cfg.join_mode = "stack") (hdup : cfg.remove_duplicates = false)
    (hload : loadFiles cfg files = .ok dfs)
    (hrun : merge_files_advanced files cfg = (some out, cs, nm)) :
    out.rows.length = (dfs.map (fun d => d.rows.length)).sum := by
  simp only [merge_files_advanced] at hrun
  split at hrun
  · simp at hrun
  · rw [hload] at hrun
    cases dfs with
    | nil => simp at hrun
    | cons d ds =>
      dsimp only at hrun
      split at hrun
      · simp at hrun
      · rename_i merged hcomb
        simp only [Prod.mk.injEq] at hrun
        obtain ⟨h1, h2, h3⟩ := hrun
        cases h1
        unfold combine at hcomb
        rw [hmode, if_pos rfl] at hcomb
        simp only [stackCombine] at hcomb
        split at hcomb
        · cases hcomb
        · split at hcomb
          · rename_i hdup'
            rw [hdup] at hdup'
            simp at hdup'
          · cases hcomb
            rw [pdConcat_rows_length, List.map_map, map_stackFinal_lengths]

/-- Witness for C1 at a concrete two-file union-stack run with 2 + 1 rows. -/
theorem c1_stack_rowcount_witness :
    loadFiles w1Cfg w1Files = .ok w1Dfs ∧
      w1Out.rows.length = (w1Dfs.map (fun d => d.rows.length)).sum :=
  ⟨by decide,
   c1_stack_rowcount w1Files w1Cfg w1Dfs w1Out (some w1Out.cols) "merged_data_stack.csv"
     rfl rfl (by decide) (by decide)⟩

/-! ### Membership lemmas for the set realizations -/

theorem mem_dedupByKeyAux_id (l : List String) :
    ∀ (seen : List String) (a : String),
      a ∈ dedupByKeyAux (fun c => c) seen l ↔ a ∈ l ∧ a ∉ seen := by
  induction l with
  | nil => intro seen a; simp [dedupByKeyAux]
  | cons c cs ih =>
    intro seen a
    by_cases h : c ∈ seen
    · have e : dedupByKeyAux (fun c => c) seen (c :: cs) =
          dedupByKeyAux (fun c => c) seen cs := by
        simp [dedupByKeyAux, h]
      rw [e, ih]
      constructor
      · rintro ⟨h1, h2⟩
        exact ⟨List.mem_cons_of_mem _ h1, h2⟩
      · rintro ⟨h1, h2⟩
        rcases List.mem_cons.mp h1 with rfl | h1
        · exact absurd h h2
        · exact ⟨h1, h2⟩
    · have e : dedupByKeyAux (fun c => c) seen (c :: cs) =
          c :: dedupByKeyAux (fun c => c) (c :: seen) cs := by
        simp [dedupByKeyAux, h]
      rw [e]
      constructor
      · intro hm
        rcases List.mem_cons.mp hm with rfl | hm
        · exact ⟨List.mem_cons_self _ _, h⟩
        · obtain ⟨h1, h2⟩ := (ih _ _).mp hm
          exact ⟨List.mem_cons_of_mem _ h1, fun hc => h2 (List.mem_cons_of_mem _ hc)⟩
      · rintro ⟨h1, h2⟩
        by_cases hac : a = c
        · subst hac; exact List.mem_cons_self _ _
        · rcases List.mem_cons.mp h1 with rfl | h1
          · exact absurd rfl hac
          · refine List.mem_cons_of_mem _ ((ih _ _).mpr ⟨h1, ?_⟩)
            intro hc
            rcases List.mem_cons.mp hc with h3 | h3
            · exact hac h3
            · exact h2 h3

theorem mem_pySet (l : List String) (a : String) : a ∈ pySet l ↔ a ∈ l := by
  simp [pySet, dedupByKey, mem_dedupByKeyAux_id]

theorem mem_foldl_inter (ss : List (List String)) :
    ∀ (s : List String) (a : String),
      a ∈ ss.foldl (fun x b => x.filter (fun c => c ∈ b)) s ↔ a ∈ s ∧ ∀ t ∈ ss, a ∈ t := by
  induction ss with
  | nil => intro s a; simp
  | cons t ts ih =>
    intro s a
    rw [List.foldl_cons, ih]
    simp only [List.mem_filter, decide_eq_true_eq, List.mem_cons]
    constructor
    · rintro ⟨⟨h1, h2⟩, h3⟩
      refine ⟨h1, ?_⟩
      intro u hu
      rcases hu with rfl | hu
      · exact h2
      · exact h3 u hu
    · rintro ⟨h1, h2⟩
      exact ⟨⟨h1, h2 t (Or.inl rfl)⟩, fun u hu => h2 u (Or.inr hu)⟩

theorem mem_intersectAll (s : List String) (ss : List (List String)) (a : String) :
    a ∈ intersectAll (s :: ss) ↔ a ∈ s ∧ ∀ t ∈ ss, a ∈ t :=
  mem_foldl_inter ss s a

theorem mem_columnSet (ci : Bool) (df : DF) (a : String) :
    a ∈ columnSet ci df ↔
      a ∈ (df.cols.filter (fun c => c ≠ "Source_File")).map (keyOf ci) := by
  simp [columnSet, mem_pySet]

theorem masterInter_eq_spec (ci : Bool) (d : DF) (ds : List DF) :
    masterInter ci d ds = interMasterSpec ci d ds := by
  unfold masterInter interMasterSpec
  apply List.filter_congr
  intro c hc
  apply decide_eq_decide.mpr
  rw [List.map_cons, mem_intersectAll]
  constructor
  · rintro ⟨h1, h2⟩
    intro df hdf
    rcases List.mem_cons.mp hdf with rfl | hdf
    · exact (mem_columnSet _ _ _).mp h1
    · exact (mem_columnSet _ _ _).mp (h2 _ (List.mem_map_of_mem _ hdf))
  · intro hall
    refine ⟨(mem_columnSet _ _ _).mpr (hall d (List.mem_cons_self _ _)), ?_⟩
    intro t ht
    obtain ⟨df, hdf, rfl⟩ := List.mem_map.mp ht
    exact (mem_columnSet _ _ _).mpr (hall df (List.mem_cons_of_mem _ hdf))

/-! ### Rename-map lemmas for the case-insensitive stack path -/

theorem find?_unique {α : Type} (p : α → Bool) (l : List α) :
    ∀ x : α, x ∈ l → p x = true → (∀ y ∈ l, p y = true → y = x) →
      l.find? p = some x := by
  induction l with
  | nil => intro x hx _ _; cases hx
  | cons a as ih =>
    intro x hx hpx huniq
    by_cases hpa : p a = true
    · have hax : a = x := huniq a (List.mem_cons_self _ _) hpa
      subst hax
      exact List.find?_cons_of_pos as hpa
    · rw [List.find?_cons_of_neg as (by simpa using hpa)]
      apply ih x ?_ hpx
      · intro y hy hpy
        exact huniq y (List.mem_cons_of_mem _ hy) hpy
      · rcases List.mem_cons.mp hx with rfl | h
        · exact absurd hpx hpa
        · exact h

theorem filterMap_tag_fst_sublist {β : Type} (h : String → Option β) (l : List String) :
    ((l.filterMap (fun c => (h c).map (fun m => (c, m)))).map Prod.fst).Sublist l := by
  induction l with
  | nil => simp
  | cons x xs ih =>
    cases hx : h x with
    | none =>
      rw [List.filterMap_cons]
      simp only [hx, Option.map_none']
      exact List.Sublist.cons x ih
    | some m =>
      rw [List.filterMap_cons]
      simp only [hx, Option.map_some']
      exact List.Sublist.cons₂ x ih

/-- If a non-provenance column of `df` agrees (lower-cased) with a master
column, and the comparison keys of both lists are duplicate-free, then the
case-insensitive rename of `df` carries that master spelling among its
columns. -/
theorem mem_rename_cols_ci (master : List String) (df : DF) (m : String)
    (hm : m ∈ master)
    (hmk : (master.map lowerStr).Nodup)
    (hck : ((df.cols.filter (fun c => c ≠ "Source_File")).map lowerStr).Nodup)
    (c : String) (hcmem : c ∈ df.cols.filter (fun c => c ≠ "Source_File"))
    (hkey : lowerStr c = lowerStr m) :
    m ∈ (df.rename (renameMapCi master df.cols)).cols := by
  have hfind : master.find? (fun m2 => lowerStr c == lowerStr m2) = some m := by
    apply find?_unique _ _ m hm (by simpa using hkey)
    intro y hy hpy
    have hcy : lowerStr c = lowerStr y := by simpa using hpy
    exact List.inj_on_of_nodup_map hmk hy hm (by rw [← hcy, hkey])
  have hentry : (c, m) ∈ renameMapCi master df.cols := by
    unfold renameMapCi
    apply List.mem_filterMap.mpr
    exact ⟨c, hcmem, by rw [hfind]; rfl⟩
  have hfst : ((renameMapCi master df.cols).map Prod.fst).Nodup := by
    have hsub := filterMap_tag_fst_sublist
      (fun c2 => master.find? (fun m2 => lowerStr c2 == lowerStr m2))
      (df.cols.filter (fun c => c ≠ "Source_File"))
    exact List.Nodup.sublist hsub (List.Nodup.of_map _ hck)
  have hassoc : (renameMapCi master df.cols).find? (fun p => p.1 == c) = some (c, m) := by
    apply find?_unique _ _ _ hentry (by simp)
    intro y hy hpy
    have hy1 : y.1 = c := by simpa using hpy
    exact List.inj_on_of_nodup_map hfst hy hentry (by simpa using hy1)
  have hcc : c ∈ df.cols := (List.mem_filter.mp hcmem).1
  unfold DF.rename
  apply List.mem_map.mpr
  refine ⟨c, hcc, ?_⟩
  rw [hassoc]
  rfl

/-! ### Concatenation column lemmas -/

theorem dedupByKeyAux_nil_of_seen (key : String → String) (R : List String) :
    ∀ seen, (∀ x ∈ R, key x ∈ seen) → dedupByKeyAux key seen R = [] := by
  induction R with
  | nil => intro seen _; rfl
  | cons x xs ih =>
    intro seen hall
    have e : dedupByKeyAux key seen (x :: xs) = dedupByKeyAux key seen xs := by
      simp [dedupByKeyAux, hall x (List.mem_cons_self _ _)]
    rw [e]
    exact ih seen fun y hy => hall y (List.mem_cons_of_mem _ hy)

theorem dedupByKeyAux_fresh (key : String → String) (master : List String) :
    ∀ (seen R : List String), (master.map key).Nodup →
      (∀ x ∈ master, key x ∉ seen) →
      dedupByKeyAux key seen (master ++ R) =
        master ++ dedupByKeyAux key ((master.map key).reverse ++ seen) R := by
  induction master with
  | nil => intro seen R _ _; simp
  | cons x xs ih =>
    intro seen R h1 h2
    have hx : key x ∉ seen := h2 x (List.mem_cons_self _ _)
    have h1' : (xs.map key).Nodup := (List.nodup_cons.mp (by simpa using h1)).2
    have hxk : key x ∉ xs.map key := (List.nodup_cons.mp (by simpa using h1)).1
    have e : dedupByKeyAux key seen ((x :: xs) ++ R) =
        x :: dedupByKeyAux key (key x :: seen) (xs ++ R) := by
      simp [dedupByKeyAux, hx]
    rw [e, ih (key x :: seen) R h1' ?fresh]
    · simp [List.append_assoc]
    · intro y hy hyc
      rcases List.mem_cons.mp hyc with hyx | hys
      · exact hxk (hyx ▸ List.mem_map_of_mem key hy)
      · exact h2 y (List.mem_cons_of_mem _ hy) hys

theorem concatCols_const (master : List String) (frames : List DF)
    (hnd : master.Nodup) (hall : ∀ f ∈ frames, f.cols = master) (hne : frames ≠ []) :
    concatCols frames = master := by
  cases frames with
  | nil => exact absurd rfl hne
  | cons f fs =>
    have hf : f.cols = master := hall f (List.mem_cons_self _ _)
    have hflat : (f :: fs).flatMap (fun d => d.cols) =
        master ++ fs.flatMap (fun d => d.cols) := by
      simp [hf]
    unfold concatCols dedupByKey
    rw [hflat,
      dedupByKeyAux_fresh (fun c => c) master [] (fs.flatMap (fun d => d.cols))
        (by simpa using hnd) (by simp),
      dedupByKeyAux_nil_of_seen (fun c => c) (fs.flatMap (fun d => d.cols))]
    · simp
    · intro x hx
      obtain ⟨g, hg, hxg⟩ := List.mem_flatMap.mp hx
      have : x ∈ master := by
        rw [← hall g (List.mem_cons_of_mem _ hg)]
        exact hxg
      simp [this]

theorem applySelected_sublist (cfg : Config) (master : List String) :
    (applySelected cfg master).Sublist master := by
  unfold applySelected
  split
  · exact List.Sublist.refl _
  · split
    · exact List.Sublist.refl _
    · split
      · exact List.filter_sublist _
      · exact List.filter_sublist _

theorem stackFinal_cols (cfg : Config) (master : List String) (df : DF)
    (hsrc : cfg.include_source_col = false)
    (hpres : ∀ m ∈ master,
      m ∈ (if cfg.case_insensitive then df.rename (renameMapCi master df.cols) else df).cols) :
    (stackFinal cfg master df).cols = master := by
  have e : (stackFinal cfg master df).cols =
      master.filter (fun c =>
        c ∈ (if cfg.case_insensitive then df.rename (renameMapCi master df.cols) else df).cols) := by
    simp [stackFinal, DF.select, hsrc]
  rw [e]
  apply List.filter_eq_self.mpr
  intro a ha
  simpa using hpres a ha

/-- Core refinement for the intersection-strategy stack path: a successful
run's output column list is the (allow-list-filtered) intersection master
column list.  The `hnd` hypothesis rules out tables carrying two columns
with the same comparison key (pandas duplicate-label indexing, which the
loading dedup cannot produce for exact duplicates, is outside the model). -/
theorem stack_intersection_core (files : List RawFile) (cfg : Config) (d : DF) (ds : List DF)
    (out : DF) (cs : List String) (nm : String)
    (hmode : cfg.join_mode = "stack")
    (hstrat : cfg.strategy = "intersection")
    (hsrc : cfg.include_source_col = false)
    (hload : loadFiles cfg files = .ok (d :: ds))
    (hnd : ∀ df ∈ d :: ds,
      ((df.cols.filter (fun c => c ≠ "Source_File")).map (keyOf cfg.case_insensitive)).Nodup)
    (hrun : merge_files_advanced files cfg = (some out, some cs, nm)) :
    cs = applySelected cfg (masterInter cfg.case_insensitive d ds) := by
  simp only [merge_files_advanced] at hrun
  split at hrun
  · simp at hrun
  · rw [hload] at hrun
    dsimp only at hrun
    split at hrun
    · simp at hrun
    · rename_i merged hcomb
      simp only [Prod.mk.injEq] at hrun
      obtain ⟨h1, h2, h3⟩ := hrun
      have hcs : cs = merged.cols := by
        cases h2
        rfl
      unfold combine at hcomb
      rw [hmode, if_pos rfl] at hcomb
      simp only [stackCombine] at hcomb
      split at hcomb
      · cases hcomb
      · cases hcomb
        rw [hcs]
        set M := applySelected cfg (masterInter cfg.case_insensitive d ds) with hM
        have hmsub : M.Sublist (d.cols.filter (fun c => c ≠ "Source_File")) := by
          rw [hM]
          exact (applySelected_sublist cfg _).trans (List.filter_sublist _)
        have hMk : (M.map (keyOf cfg.case_insensitive)).Nodup :=
          List.Nodup.sublist (hmsub.map _) (hnd d (List.mem_cons_self _ _))
        have hMnd : M.Nodup := List.Nodup.of_map _ hMk
        have hshared : ∀ m ∈ M, ∀ df ∈ d :: ds,
            keyOf cfg.case_insensitive m ∈ columnSet cfg.case_insensitive df := by
          intro m hm df hdf
          have hm0 : m ∈ applySelected cfg (masterInter cfg.case_insensitive d ds) := by
            rw [← hM]; exact hm
          have hm' : m ∈ masterInter cfg.case_insensitive d ds :=
            (applySelected_sublist cfg _).subset hm0
          have hdec := (List.mem_filter.mp hm').2
          have hint : keyOf cfg.case_insensitive m ∈
              intersectAll ((d :: ds).map (columnSet cfg.case_insensitive)) := by
            simpa using hdec
          rw [List.map_cons, mem_intersectAll] at hint
          rcases List.mem_cons.mp hdf with rfl | hdf
          · exact hint.1
          · exact hint.2 _ (List.mem_map_of_mem _ hdf)
        have hpres : ∀ df ∈ d :: ds, ∀ m ∈ M,
            m ∈ (if cfg.case_insensitive
                then df.rename (renameMapCi M df.cols) else df).cols := by
          intro df hdf m hm
          have hcol := (mem_columnSet _ _ _).mp (hshared m hm df hdf)
          cases hci : cfg.case_insensitive with
          | false =>
            rw [hci] at hcol
            show m ∈ df.cols
            have hkl : keyOf false = fun c => c := funext fun c => rfl
            rw [hkl] at hcol
            have hcol' : m ∈ df.cols.filter (fun c => c ≠ "Source_File") := by
              simpa using hcol
            exact (List.mem_filter.mp hcol').1
          | true =>
            rw [hci] at hcol
            show m ∈ (df.rename (renameMapCi M df.cols)).cols
            have hkl : keyOf true = lowerStr := funext fun c => rfl
            rw [hkl] at hcol
            obtain ⟨c, hcfil, hckey⟩ := List.mem_map.mp hcol
            apply mem_rename_cols_ci M df m hm
            · have := hMk
              rw [hci, hkl] at this
              exact this
            · have := hnd df hdf
              rw [hci, hkl] at this
              exact this
            · exact hcfil
            · rw [hckey]
        have hcols : (if cfg.remove_duplicates = true
            then (pdConcat ((d :: ds).map (stackFinal cfg M))).dropDuplicates
            else pdConcat ((d :: ds).map (stackFinal cfg M))).cols =
            concatCols ((d :: ds).map (stackFinal cfg M)) := by
          by_cases h : cfg.remove_duplicates = true <;>
            simp [h, DF.dropDuplicates, pdConcat]
        rw [hcols]
        apply concatCols_const M _ hMnd ?_ (by simp)
        intro f hf
        obtain ⟨df, hdf, rfl⟩ := List.mem_map.mp hf
        exact stackFinal_cols cfg M df hsrc (fun m hm => hpres df hdf m hm)

/-! ### C3: intersection-strategy master columns -/

/-- C3: in an intersection-strategy stack run (no allow-list, provenance
column off so the output columns are exactly the master columns), the output
column list equals the spec-side description: the set-intersection of all
loaded tables' column names under the configured comparison key, ordered by
first appearance in the first loaded table and spelled as in the first
table.  Scenario B is the witness. -/
theorem c3_intersection_master (files : List RawFile) (cfg : Config) (d : DF) (ds : List DF)
    (out : DF) (cs : List String) (nm : String)
    (hmode : cfg.join_mode = "stack")
    (hstrat : cfg.strategy = "intersection")
    (hsel : cfg.selected_columns = none)
    (hsrc : cfg.include_source_col = false)
    (hload : loadFiles cfg files = .ok (d :: ds))
    (hnd : ∀ df ∈ d :: ds,
      ((df.cols.filter (fun c => c ≠ "Source_File")).map (keyOf cfg.case_insensitive)).Nodup)
    (hrun : merge_files_advanced files cfg = (some out, some cs, nm)) :
    cs = interMasterSpec cfg.case_insensitive d ds := by
  have h := stack_intersection_core files cfg d ds out cs nm hmode hstrat hsrc hload hnd hrun
  rw [h]
  unfold applySelected
  rw [hsel]
  exact masterInter_eq_spec _ _ _

/-- Witness for C3: Scenario B — headers `["ID","Name"]` / `["id","Name"]`,
`case_insensitive = true`, intersection strategy: the output columns are
`["ID","Name"]`, spelled as in the first file. -/
theorem c3_intersection_master_witness :
    loadFiles w3Cfg w3Files = .ok [w3D1, w3D2] ∧
      ["ID", "Name"] = interMasterSpec w3Cfg.case_insensitive w3D1 [w3D2] :=
  ⟨by decide,
   c3_intersection_master w3Files w3Cfg w3D1 [w3D2] w3Out ["ID", "Name"]
     "merged_data_stack.csv" rfl rfl rfl rfl (by decide) (by decide) (by decide)⟩

/-! ### C5: case-insensitive allow-list matching -/

/-- C5 counterexample: with `case_insensitive = true`, master spelling `ID`
and allow-list `["id"]`, the column `ID` is retained although it matches no
allow-list entry by exact (case-sensitive) comparison — refuting the claim
that the allow-list is matched case-sensitively against master spellings. -/
theorem c5_counterexample :
    merge_files_advanced w5Files w5Cfg =
      (some ⟨["ID"], [[some "1"]]⟩, some ["ID"], "merged_data_stack.csv") ∧
      "ID" ∉ (["id"] : List String) := by
  exact ⟨by decide, by decide⟩

/-- C5 (amended): in a stack run with `case_insensitive = true` and a
non-empty allow-list, a master column is retained iff its *lower-cased* name
matches a lower-cased allow-list entry (the comparison is case-insensitive,
not exact); stated here for the intersection strategy against the spec-side
master description. -/
theorem c5_amended (files : List RawFile) (cfg : Config) (d : DF) (ds : List DF)
    (out : DF) (cs : List String) (nm : String) (sel : List String)
    (hmode : cfg.join_mode = "stack")
    (hstrat : cfg.strategy = "intersection")
    (hsrc : cfg.include_source_col = false)
    (hci : cfg.case_insensitive = true)
    (hsel : cfg.selected_columns = some sel)
    (hne : sel.isEmpty = false)
    (hload : loadFiles cfg files = .ok (d :: ds))
    (hnd : ∀ df ∈ d :: ds,
      ((df.cols.filter (fun c => c ≠ "Source_File")).map (keyOf cfg.case_insensitive)).Nodup)
    (hrun : merge_files_advanced files cfg = (some out, some cs, nm)) :
    cs = (interMasterSpec true d ds).filter
      (fun c => lowerStr c ∈ sel.map lowerStr) := by
  have h := stack_intersection_core files cfg d ds out cs nm hmode hstrat hsrc hload hnd hrun
  rw [h]
  unfold applySelected
  rw [hsel]
  simp only [hne, hci, Bool.false_eq_true, if_false, if_true]
  rw [masterInter_eq_spec]

/-- Witness for the amended C5 at the counterexample input: `ID` is kept
because `lowerStr "ID" = "id"` matches the allow-list entry `"id"`. -/
theorem c5_amended_witness :
    loadFiles w5Cfg w5Files = .ok [w5D] ∧
      ["ID"] = (interMasterSpec true w5D []).filter
        (fun c => lowerStr c ∈ (["id"] : List String).map lowerStr) :=
  ⟨by decide,
   c5_amended w5Files w5Cfg w5D [] ⟨["ID"], [[some "1"]]⟩ ["ID"]
     "merged_data_stack.csv" ["id"] rfl rfl rfl rfl rfl rfl (by decide) (by decide) (by decide)⟩

/-! ### C2: handling of unrecognized filename extensions -/

/-- C2 counterexample: a file named `data.txt` — neither a `.csv` nor a
spreadsheet extension — whose bytes happen to form a valid workbook is
parsed by the spreadsheet reader and the merge *succeeds*, so the claim that
such an input always fails the invocation with `UnsupportedFormat` is false
(the code has no extension allow-list and no such error kind). -/
theorem c2_counterexample :
    merge_files_advanced
        [⟨"data.txt", CsvRead.fails "x", ExcelRead.ok [⟨["A"], [[some "1"]]⟩]⟩] {} =
      (some ⟨["A", "Source_File"], [[some "1", some "data.txt"]]⟩,
        some ["A", "Source_File"], "merged_data_stack.xlsx") ∧
      endsWithStr (lowerStr "data.txt") ".csv" = false :=
  ⟨by decide, by decide⟩

/-- C2 (amended): a filename without a `.csv` extension is routed to the
spreadsheet reader regardless of its extension; if the bytes do not parse as
a workbook the whole invocation aborts with the generic `"Merge Error: "`
message (shown here for the first file), and if they do parse the merge
proceeds (the counterexample). -/
theorem c2_amended (f : RawFile) (fs : List RawFile) (cfg : Config) (m : String)
    (hname : endsWithStr (lowerStr f.name) ".csv" = false)
    (hexcel : f.excel = .fails m) :
    merge_files_advanced (f :: fs) cfg = (none, none, "Merge Error: " ++ m) := by
  have hr : readFile cfg.all_sheets f = .error m := by
    simp [readFile, hname, hexcel]
  have hl : loadFiles cfg (f :: fs) = .error m := by
    simp [loadFiles, hr]
  simp [merge_files_advanced, hl]

/-- Witness for the amended C2: a `.bin` file whose bytes parse under
neither reader aborts the whole run with the generic message. -/
theorem c2_amended_witness :
    endsWithStr (lowerStr "data.bin") ".csv" = false ∧
      merge_files_advanced [⟨"data.bin", CsvRead.fails "x", ExcelRead.fails "format error"⟩] {} =
        (none, none, "Merge Error: " ++ "format error") :=
  ⟨by decide,
   c2_amended ⟨"data.bin", CsvRead.fails "x", ExcelRead.fails "format error"⟩ [] {} "format error"
     (by decide) rfl⟩

/-! ### C7: an undecodable CSV aborts the whole invocation -/

theorem loadFiles_append (cfg : Config) (xs ys : List RawFile) :
    loadFiles cfg (xs ++ ys) =
      match loadFiles cfg xs with
      | .error m => .error m
      | .ok a =>
        match loadFiles cfg ys with
        | .error m => .error m
        | .ok b => .ok (a ++ b) := by
  induction xs with
  | nil =>
    simp only [List.nil_append, loadFiles]
    cases hy : loadFiles cfg ys <;> simp
  | cons f fs ih =>
    simp only [List.cons_append, loadFiles, List.append_eq]
    cases hr : readFile cfg.all_sheets f
    · rfl
    · dsimp only
      rw [ih]
      cases hx : loadFiles cfg fs
      · rfl
      · cases hy : loadFiles cfg ys
        · rfl
        · simp [List.append_assoc]

/-- C7 counterexample: in stack mode, a CSV whose read path fails even under
the fallback encoding does *not* get skipped — the whole invocation aborts
and the remaining decodable file is not merged, refuting the claimed
skip-and-continue behaviour of `merge_files_advanced` (skipping exists only
in the preview helper). -/
theorem c7_counterexample :
    merge_files_advanced
        [⟨"bad.csv", CsvRead.fails "could not decode", ExcelRead.fails "not excel"⟩,
         csvFile "good.csv" ["A"] [[some "1"]]] {} =
      (none, none, "Merge Error: could not decode") := by
  decide

/-- C7 (amended): in every mode (stack included), a CSV input whose read
fails under both attempted encodings aborts the whole invocation with the
generic `"Merge Error: "` message, regardless of how many files precede or
follow it; per-file skip-and-continue exists only in the preview helper. -/
theorem c7_amended (pre post : List RawFile) (f : RawFile) (cfg : Config)
    (dfs : List DF) (m : String)
    (hpre : loadFiles cfg pre = .ok dfs)
    (hname : endsWithStr (lowerStr f.name) ".csv" = true)
    (hcsv : f.csv = .fails m) :
    merge_files_advanced (pre ++ f :: post) cfg = (none, none, "Merge Error: " ++ m) := by
  have hr : readFile cfg.all_sheets f = .error m := by
    simp [readFile, hname, hcsv]
  have hl : loadFiles cfg (pre ++ f :: post) = .error m := by
    rw [loadFiles_append, hpre]
    simp [loadFiles, hr]
  have hne : (pre ++ f :: post).isEmpty = false := by
    cases pre <;> rfl
  simp [merge_files_advanced, hl, hne]

/-- Witness for the amended C7: one good CSV loads, the second fails under
both encodings, and the whole stack invocation aborts. -/
theorem c7_amended_witness :
    loadFiles { } [csvFile "good.csv" ["A"] [[some "1"]]] =
        .ok [⟨["A", "Source_File"], [[some "1", some "good.csv"]]⟩] ∧
      merge_files_advanced
          ([csvFile "good.csv" ["A"] [[some "1"]]] ++
            ⟨"bad2.csv", CsvRead.fails "boom", ExcelRead.fails "not excel"⟩ :: []) {} =
        (none, none, "Merge Error: " ++ "boom") :=
  ⟨by decide,
   c7_amended [csvFile "good.csv" ["A"] [[some "1"]]] []
     ⟨"bad2.csv", CsvRead.fails "boom", ExcelRead.fails "not excel"⟩ {}
     [⟨["A", "Source_File"], [[some "1", some "good.csv"]]⟩] "boom"
     (by decide) (by decide) rfl⟩

/-! ### Cell-access lemmas -/

theorem cellAt_map (cs : List String) (g : String → Cell) (c : String) :
    cellAt cs (cs.map g) c = if c ∈ cs then g c else none := by
  induction cs with
  | nil => simp [cellAt]
  | cons x xs ih =>
    simp only [List.map_cons, cellAt]
    by_cases hx : x = c
    · subst hx
      simp
    · have htl : (g x :: xs.map g).tail = xs.map g := rfl
      rw [if_neg hx, htl, ih]
      by_cases hc : c ∈ xs
      · simp [hc, hx]
      · simp [hc, hx, Ne.symm hx]

theorem cellAt_append_map (xs : List String) (g : String → Cell) (ys : List String)
    (rest : List Cell) (c : String) :
    cellAt (xs ++ ys) (xs.map g ++ rest) c =
      if c ∈ xs then g c else cellAt ys rest c := by
  induction xs with
  | nil => simp [cellAt]
  | cons x xs ih =>
    simp only [List.cons_append, List.map_cons, cellAt, List.append_eq]
    by_cases hx : x = c
    · subst hx
      simp
    · have htl : (g x :: (xs.map g ++ rest)).tail = xs.map g ++ rest := rfl
      rw [if_neg hx, htl, ih]
      by_cases hc : c ∈ xs
      · simp [hc, hx]
      · simp [hc, hx, Ne.symm hx]

/-! ### C4: inner-join key semantics -/

theorem pdMerge_cols (l r : DF) (key how suffix : String) :
    (pdMerge l r key how suffix).cols =
      l.cols ++ (r.cols.filter (fun c => c ≠ key)).map
        (fun c => if c ∈ l.cols then c ++ suffix else c) := rfl

theorem pdMerge_inner_rows (l r : DF) (key suffix : String) :
    (pdMerge l r key "inner" suffix).rows =
      l.rows.flatMap (fun lr =>
        (r.rows.filter (fun rr =>
          decide (cellAt l.cols lr key = cellAt r.cols rr key))).map
          (fun rr => l.cols.map (cellAt l.cols lr) ++
            (r.cols.filter (fun c => c ≠ key)).map (cellAt r.cols rr))) := rfl

/-- The key column of an inner `pd.merge` holds exactly the key values
present in both operands. -/
theorem pdMerge_inner_key_col (l r : DF) (key suffix : String)
    (hkl : key ∈ l.cols) :
    ∀ v : Cell, v ∈ (pdMerge l r key "inner" suffix).col key ↔
      v ∈ l.col key ∧ v ∈ r.col key := by
  intro v
  unfold DF.col
  rw [pdMerge_inner_rows, pdMerge_cols]
  simp only [List.mem_map, List.mem_flatMap, List.mem_filter, decide_eq_true_eq]
  constructor
  · rintro ⟨row, ⟨lr, hlr, ⟨rr, ⟨hrr, hk⟩, rfl⟩⟩, rfl⟩
    rw [cellAt_append_map, if_pos hkl]
    exact ⟨⟨lr, hlr, rfl⟩, ⟨rr, hrr, hk.symm⟩⟩
  · rintro ⟨⟨lr, hlr, hvl⟩, ⟨rr, hrr, hvr⟩⟩
    refine ⟨l.cols.map (cellAt l.cols lr) ++
        (r.cols.filter (fun c => c ≠ key)).map (cellAt r.cols rr),
      ⟨lr, hlr, ⟨rr, ⟨hrr, by rw [hvl, hvr]⟩, rfl⟩⟩, ?_⟩
    rw [cellAt_append_map, if_pos hkl]
    exact hvl

/-- C4: in an inner-join run of two loaded tables on join key `k` (each
table's case-insensitive key lookup finding the exact spelling `k`), the key
values of the output are exactly the key values present in both input
tables.  Scenario D is the witness. -/
theorem c4_inner_join_keys (files : List RawFile) (cfg : Config) (d1 d2 : DF)
    (out : DF) (cs : Option (List String)) (nm : String) (k : String)
    (hmode : cfg.join_mode = "inner")
    (hkey : cfg.join_key = some k)
    (hk : k ≠ "")
    (hsel : cfg.selected_columns = none)
    (hload : loadFiles cfg files = .ok [d1, d2])
    (hf1 : d1.cols.find? (fun c => lowerStr c == lowerStr k) = some k)
    (hf2 : d2.cols.find? (fun c => lowerStr c == lowerStr k) = some k)
    (hrun : merge_files_advanced files cfg = (some out, cs, nm)) :
    ∀ v : Cell, v ∈ out.col k ↔ v ∈ d1.col k ∧ v ∈ d2.col k := by
  simp only [merge_files_advanced] at hrun
  split at hrun
  · simp at hrun
  · rw [hload] at hrun
    dsimp only at hrun
    split at hrun
    · simp at hrun
    · rename_i merged hcomb
      simp only [Prod.mk.injEq] at hrun
      obtain ⟨h1, h2, h3⟩ := hrun
      cases h1
      have hc : combine cfg d1 [d2] =
          .ok (pdMerge d1 d2 k "inner" ("_F" ++ toString 2)) := by
        simp [combine, joinCombine, hmode, hkey, hk, standardizeKeys, hf1, hf2, joinFold, hsel]
      rw [hc] at hcomb
      cases hcomb
      intro v
      exact pdMerge_inner_key_col d1 d2 k _ (List.mem_of_find?_eq_some hf1) v

/-- Witness for C4: Scenario D — ids `{1,2,3}` inner-joined with `{2,3,4}`
on `"id"`; instantiated at the key value `"2"`, which is in the output
because it is in both inputs. -/
theorem c4_inner_join_keys_witness :
    loadFiles w4Cfg w4Files = .ok [w4D1, w4D2] ∧
      (some "2" ∈ w4Out.col "id" ↔
        some "2" ∈ w4D1.col "id" ∧ some "2" ∈ w4D2.col "id") :=
  ⟨by decide,
   c4_inner_join_keys w4Files w4Cfg w4D1 w4D2 w4Out (some ["id"]) "merged_data_inner.csv" "id"
     rfl rfl (by decide) rfl (by decide) (by decide) (by decide) (by decide) (some "2")⟩

/-! ### C6: the preview union column list -/

/-- C6 counterexample: for a single CSV with header `["ID"]` and
`case_insensitive = true`, the union preview returns `["id"]` — the
lower-cased set element — not the first table's spelling `["ID"]` claimed by
the spec (the union branch iterates the per-table *sets*, lines 239-248). -/
theorem c6_counterexample :
    preview_common_columns [csvFile "a.csv" ["ID"] [[some "x"]]] "union" true false =
      (["id"], [["ID"], ["x"]]) ∧ (["id"] : List String) ≠ ["ID"] :=
  ⟨by decide, by decide⟩

theorem nodup_dedupByKeyAux_id (l : List String) :
    ∀ seen, (dedupByKeyAux (fun c => c) seen l).Nodup := by
  induction l with
  | nil => intro seen; simp [dedupByKeyAux]
  | cons c cs ih =>
    intro seen
    by_cases h : c ∈ seen
    · have e : dedupByKeyAux (fun c => c) seen (c :: cs) =
          dedupByKeyAux (fun c => c) seen cs := by
        simp [dedupByKeyAux, h]
      rw [e]
      exact ih seen
    · have e : dedupByKeyAux (fun c => c) seen (c :: cs) =
          c :: dedupByKeyAux (fun c => c) (c :: seen) cs := by
        simp [dedupByKeyAux, h]
      rw [e]
      refine List.nodup_cons.mpr ⟨?_, ih _⟩
      intro hc
      exact ((mem_dedupByKeyAux_id cs _ c).mp hc).2 (List.mem_cons_self _ _)

theorem previewScan_sets (ci : Bool) (files : List RawFile) :
    ∀ i, (previewScan ci i files).1 =
      files.filterMap (fun f => (previewLoad f).map
        (fun df => pySet ((df.cols.map trimStr).map (keyOf ci)))) := by
  induction files with
  | nil => intro i; rfl
  | cons f fs ih =>
    intro i
    cases hf : previewLoad f
    · simp [previewScan, hf, List.filterMap_cons, ih]
    · simp [previewScan, hf, List.filterMap_cons, ih]

/-- C6 (amended): the union-strategy preview returns each comparison key
exactly once (the list is duplicate-free), and a name is returned iff it is
the trimmed — and, when `case_insensitive`, lower-cased — key of some column
of some loadable input.  Order within one table follows set iteration rather
than header order, and under `case_insensitive = true` the names are
lower-cased forms rather than the first table's spelling (see the
counterexample). -/
theorem c6_amended (files : List RawFile) (ci : Bool) (allSheets : Bool) :
    (preview_common_columns files "union" ci allSheets).1.Nodup ∧
    ∀ c, c ∈ (preview_common_columns files "union" ci allSheets).1 ↔
      ∃ f ∈ files, ∃ df, previewLoad f = some df ∧
        c ∈ (df.cols.map trimStr).map (keyOf ci) := by
  have hs := previewScan_sets ci files 0
  simp only [preview_common_columns]
  rw [hs]
  by_cases hemp : (files.filterMap (fun f => (previewLoad f).map
      (fun df => pySet ((df.cols.map trimStr).map (keyOf ci))))).isEmpty
  · rw [if_pos hemp]
    refine ⟨List.nodup_nil, ?_⟩
    intro c
    simp only [List.not_mem_nil, false_iff]
    rintro ⟨f, hf, df, hdf, hc⟩
    have h2 : files.filterMap (fun f => (previewLoad f).map
        (fun df => pySet ((df.cols.map trimStr).map (keyOf ci)))) = [] := by
      cases he : files.filterMap (fun f => (previewLoad f).map
        (fun df => pySet ((df.cols.map trimStr).map (keyOf ci))))
      · rfl
      · rw [he] at hemp
        simp at hemp
    have h3 := List.filterMap_eq_nil_iff.mp h2 f hf
    rw [hdf] at h3
    simp at h3
  · rw [if_neg hemp, if_neg (by decide : ¬("union" : String) = "intersection")]
    constructor
    · exact nodup_dedupByKeyAux_id _ []
    · intro c
      show c ∈ dedupByKey (fun c => c) _ ↔ _
      have e1 : ∀ (L : List (List String)) (x : String),
          x ∈ dedupByKey (fun c => c) (L.flatMap (fun s => s)) ↔
            x ∈ L.flatMap (fun s => s) := by
        intro L x
        unfold dedupByKey
        rw [mem_dedupByKeyAux_id]
        simp
      rw [e1]
      simp only [List.mem_flatMap, List.mem_filterMap, Option.map_eq_some']
      constructor
      · rintro ⟨s, ⟨f, hf, df, hdf, rfl⟩, hc⟩
        exact ⟨f, hf, df, hdf, (mem_pySet _ _).mp hc⟩
      · rintro ⟨f, hf, df, hdf, hc⟩
        exact ⟨_, ⟨f, hf, df, hdf, rfl⟩, (mem_pySet _ _).mpr hc⟩

/-! ### C10: an existing Source_File column is silently overwritten -/

theorem cellAt_assignRow (cols : List String) (c : String) (v : Cell) :
    ∀ row, cellAt cols (assignRow cols c v row) c = if c ∈ cols then v else none := by
  induction cols with
  | nil => intro row; simp [cellAt, assignRow]
  | cons x xs ih =>
    intro row
    simp only [assignRow, cellAt]
    by_cases hx : x = c
    · subst hx
      simp
    · have htl : ((if x = c then v else row.headD none) :: assignRow xs c v row.tail).tail
          = assignRow xs c v row.tail := rfl
      rw [if_neg hx, htl, ih]
      by_cases hc : c ∈ xs
      · simp [hc, hx]
      · simp [hc, hx, Ne.symm hx]

theorem cellAt_append_right (ys : List String) (c : String) :
    ∀ (xs : List String) (row1 row2 : List Cell), c ∉ xs → row1.length = xs.length →
      cellAt (xs ++ ys) (row1 ++ row2) c = cellAt ys row2 c := by
  intro xs
  induction xs with
  | nil =>
    intro row1 row2 _ hlen
    have hr : row1 = [] := List.length_eq_zero.mp hlen
    subst hr
    simp
  | cons x xs ih =>
    intro row1 row2 hx hlen
    have hxc : x ≠ c := fun h => hx (h ▸ List.mem_cons_self _ _)
    cases row1 with
    | nil => simp at hlen
    | cons a r1 =>
      simp only [List.cons_append, cellAt, if_neg hxc]
      exact ih r1 row2 (fun h => hx (List.mem_cons_of_mem _ h)) (by simpa using hlen)

theorem cellAt_dedup (c : String) :
    ∀ (cols : List String) (row : List Cell) (seen : List String), c ∉ seen →
      cellAt (dedupNames seen cols) (dedupRow seen cols row) c = cellAt cols row c := by
  intro cols
  induction cols with
  | nil => intro row seen _; rfl
  | cons x cs ih =>
    intro row seen h
    by_cases hx : x ∈ seen
    · have e1 : dedupNames seen (x :: cs) = dedupNames seen cs := by
        simp [dedupNames, hx]
      have e2 : dedupRow seen (x :: cs) row = dedupRow seen cs row.tail := by
        simp [dedupRow, hx]
      have hxc : x ≠ c := fun hh => h (hh ▸ hx)
      have e3 : cellAt (x :: cs) row c = cellAt cs row.tail c := by
        simp [cellAt, hxc]
      rw [e1, e2, e3]
      exact ih row.tail seen h
    · have e1 : dedupNames seen (x :: cs) = x :: dedupNames (x :: seen) cs := by
        simp [dedupNames, hx]
      have e2 : dedupRow seen (x :: cs) row =
          row.headD none :: dedupRow (x :: seen) cs row.tail := by
        simp [dedupRow, hx]
      rw [e1, e2]
      by_cases hxc : x = c
      · subst hxc
        simp [cellAt]
      · have e3 : cellAt (x :: dedupNames (x :: seen) cs)
            (row.headD none :: dedupRow (x :: seen) cs row.tail) c =
            cellAt (dedupNames (x :: seen) cs) (dedupRow (x :: seen) cs row.tail) c := by
          simp [cellAt, hxc]
        have e4 : cellAt (x :: cs) row c = cellAt cs row.tail c := by
          simp [cellAt, hxc]
        rw [e3, e4]
        apply ih
        intro hc
        rcases List.mem_cons.mp hc with h1 | h1
        · exact hxc h1.symm
        · exact h h1

theorem col_dedupCols (df : DF) (c : String) : (DF.dedupCols df).col c = df.col c := by
  unfold DF.dedupCols
  split
  · rfl
  · unfold DF.col
    simp only [List.map_map, Function.comp]
    apply List.map_congr_left
    intro r hr
    exact cellAt_dedup c df.cols r [] (by simp)

theorem col_assign_self (df : DF) (c : String) (v : Cell) :
    (df.assign c v).col c = List.replicate df.rows.length v := by
  unfold DF.assign DF.col
  split
  · rename_i h
    simp only [List.map_map, Function.comp]
    apply List.eq_replicate_iff.mpr
    refine ⟨by simp, ?_⟩
    intro b hb
    obtain ⟨r, hr, rfl⟩ := List.mem_map.mp hb
    simp only [Function.comp_apply]
    rw [cellAt_assignRow, if_pos h]
  · rename_i h
    simp only [List.map_map, Function.comp]
    apply List.eq_replicate_iff.mpr
    refine ⟨by simp, ?_⟩
    intro b hb
    obtain ⟨r, hr, rfl⟩ := List.mem_map.mp hb
    simp only [Function.comp_apply]
    rw [cellAt_append_right [c] c df.cols _ _ h ?hlen]
    · simp [cellAt]
    · simp [List.length_take]
      omega

theorem dedupCols_rows_length (df : DF) : (DF.dedupCols df).rows.length = df.rows.length := by
  unfold DF.dedupCols
  split <;> simp

theorem assign_rows_length (df : DF) (c : String) (v : Cell) :
    (df.assign c v).rows.length = df.rows.length := by
  unfold DF.assign
  split <;> simp

/-- Loading a table in stack mode with the provenance column enabled leaves
every row's `Source_File` cell equal to the originating filename, whatever
the table originally carried in a column of that name (cleaning assumed
off). -/
theorem prepDF_sourcefile (cfg : Config) (fn : String) (df0 df : DF)
    (hsrcT : cfg.include_source_col = true) (hmode : cfg.join_mode = "stack")
    (htrim : cfg.trim_whitespace = false) (hcase : cfg.casing = "none")
    (hp : prepDF cfg fn df0 = some df) :
    df.col "Source_File" = List.replicate df.rows.length (some fn) := by
  unfold prepDF at hp
  split at hp
  · cases hp
  · simp only [hsrcT, hmode, htrim, hcase] at hp
    simp at hp
    cases hp
    rw [col_dedupCols, col_assign_self, dedupCols_rows_length, assign_rows_length]

theorem mem_dropDupRowsAux (keyCols cols : List String) (rows : List (List Cell)) :
    ∀ seen r, r ∈ dropDupRowsAux keyCols cols seen rows → r ∈ rows := by
  induction rows with
  | nil => intro seen r h; exact absurd h (List.not_mem_nil r)
  | cons x xs ih =>
    intro seen r h
    by_cases hk : (keyCols.map (cellAt cols x)) ∈ seen
    · have e : dropDupRowsAux keyCols cols seen (x :: xs) =
          dropDupRowsAux keyCols cols seen xs := by
        simp [dropDupRowsAux, hk]
      rw [e] at h
      exact List.mem_cons_of_mem _ (ih seen r h)
    · have e : dropDupRowsAux keyCols cols seen (x :: xs) =
          x :: dropDupRowsAux keyCols cols ((keyCols.map (cellAt cols x)) :: seen) xs := by
        simp [dropDupRowsAux, hk]
      rw [e] at h
      rcases List.mem_cons.mp h with rfl | h2
      · exact List.mem_cons_self _ _
      · exact List.mem_cons_of_mem _ (ih _ r h2)

/-- A successful `stackCombine` produces a table whose columns are those of
the concatenation of the per-table final frames, for *some* master column
list, and whose rows all come from that concatenation (de-duplication only
removes rows). -/
theorem stackCombine_ok_shape (cfg : Config) (d : DF) (ds : List DF) (merged : DF)
    (h : stackCombine cfg d ds = .ok merged) :
    ∃ master, merged.cols = concatCols ((d :: ds).map (stackFinal cfg master)) ∧
      ∀ r ∈ merged.rows, r ∈ (pdConcat ((d :: ds).map (stackFinal cfg master))).rows := by
  simp only [stackCombine] at h
  by_cases hs : cfg.strategy = "intersection" ∧
      intersectAll ((d :: ds).map (columnSet cfg.case_insensitive)) = []
  · rw [if_pos hs] at h
    cases h
  · rw [if_neg hs] at h
    cases h
    refine ⟨applySelected cfg (if cfg.strategy = "intersection"
        then masterInter cfg.case_insensitive d ds
        else masterUnion cfg.case_insensitive (d :: ds)), ?_, ?_⟩
    · split <;> rfl
    · intro r hr
      split at hr
      · exact mem_dropDupRowsAux _ _ _ [] r hr
      · exact hr

/-- C10: in a single-file stack run with the provenance column enabled (and
the cleaning transforms off, `case_insensitive` false), every row of the
output carries the originating filename in its `Source_File` cell —
regardless of what the input table held in a column of that name, so any
original `Source_File` data is silently overwritten and never reaches the
output. -/
theorem c10_source_file_overwritten (f : RawFile) (cfg : Config)
    (out : DF) (cs : Option (List String)) (nm : String)
    (hmode : cfg.join_mode = "stack")
    (hsrcT : cfg.include_source_col = true)
    (hci : cfg.case_insensitive = false)
    (htrim : cfg.trim_whitespace = false)
    (hcase : cfg.casing = "none")
    (hrun : merge_files_advanced [f] cfg = (some out, cs, nm)) :
    out.col "Source_File" = List.replicate out.rows.length (some f.name) := by
  simp only [merge_files_advanced] at hrun
  split at hrun
  · simp at hrun
  · split at hrun
    · simp at hrun
    · simp at hrun
    · rename_i d ds hl
      split at hrun
      · simp at hrun
      · rename_i merged hcomb
        simp only [Prod.mk.injEq] at hrun
        obtain ⟨h1, h2, h3⟩ := hrun
        cases h1
        unfold combine at hcomb
        rw [hmode, if_pos rfl] at hcomb
        obtain ⟨master, hcols, hrows⟩ := stackCombine_ok_shape cfg d ds out hcomb
        have hdf : ∀ df ∈ d :: ds, ∀ r ∈ df.rows,
            cellAt df.cols r "Source_File" = some f.name := by
          intro df hdfm r hr
          have hex : ∃ df0, prepDF cfg f.name df0 = some df := by
            simp only [loadFiles] at hl
            rcases hre : readFile cfg.all_sheets f with m | ds0
            · rw [hre] at hl
              simp at hl
            · rw [hre] at hl
              dsimp only at hl
              injection hl with h4
              rw [List.append_nil] at h4
              have : df ∈ ds0.filterMap (prepDF cfg f.name) := by
                rw [h4]
                exact hdfm
              obtain ⟨df0, _, hp⟩ := List.mem_filterMap.mp this
              exact ⟨df0, hp⟩
          obtain ⟨df0, hp⟩ := hex
          have hcol := prepDF_sourcefile cfg f.name df0 df hsrcT hmode htrim hcase hp
          have hmem : cellAt df.cols r "Source_File" ∈ df.col "Source_File" :=
            List.mem_map_of_mem _ hr
          rw [hcol] at hmem
          exact List.eq_of_mem_replicate hmem
        have hframe : ∀ df ∈ d :: ds,
            "Source_File" ∈ (stackFinal cfg master df).cols ∧
            ∀ r ∈ (stackFinal cfg master df).rows,
              cellAt (stackFinal cfg master df).cols r "Source_File" = some f.name := by
          intro df hdfm
          have hsf : stackFinal cfg master df =
              df.select (master.filter (fun c => c ∈ df.cols) ++ ["Source_File"]) := by
            simp [stackFinal, hci, hsrcT]
          rw [hsf]
          simp only [DF.select]
          constructor
          · exact List.mem_append_right _ (List.mem_singleton.mpr rfl)
          · intro r hr
            obtain ⟨r0, hr0, rfl⟩ := List.mem_map.mp hr
            rw [cellAt_map, if_pos (List.mem_append_right _ (List.mem_singleton.mpr rfl))]
            exact hdf df hdfm r0 hr0
        have hSFin : "Source_File" ∈ concatCols ((d :: ds).map (stackFinal cfg master)) := by
          have hfr0 : stackFinal cfg master d ∈ (d :: ds).map (stackFinal cfg master) :=
            List.mem_map_of_mem _ (List.mem_cons_self _ _)
          unfold concatCols dedupByKey
          rw [mem_dedupByKeyAux_id]
          exact ⟨List.mem_flatMap.mpr ⟨_, hfr0,
            (hframe d (List.mem_cons_self _ _)).1⟩, by simp⟩
        have hout0 : ∀ r ∈ (pdConcat ((d :: ds).map (stackFinal cfg master))).rows,
            cellAt (concatCols ((d :: ds).map (stackFinal cfg master))) r "Source_File" =
              some f.name := by
          intro r hr
          obtain ⟨fr, hfr, hrm⟩ := List.mem_flatMap.mp hr
          obtain ⟨df, hdfm, rfl⟩ := List.mem_map.mp hfr
          obtain ⟨r0, hr0, rfl⟩ := List.mem_map.mp hrm
          rw [cellAt_map, if_pos hSFin]
          exact (hframe df hdfm).2 r0 hr0
        unfold DF.col
        apply List.eq_replicate_iff.mpr
        refine ⟨by simp, ?_⟩
        intro b hb
        obtain ⟨r, hr, rfl⟩ := List.mem_map.mp hb
        rw [hcols]
        exact hout0 r (hrows r hr)

/-- Witness for C10: an input CSV that already carries a `Source_File`
column with data `orig1`/`orig2`; in the output both rows hold the filename
`a.csv` instead. -/
theorem c10_source_file_overwritten_witness :
    merge_files_advanced [w10File] {} =
        (some w10Out, some ["A", "Source_File"], "merged_data_stack.csv") ∧
      w10Out.col "Source_File" = List.replicate w10Out.rows.length (some "a.csv") :=
  ⟨by decide,
   c10_source_file_overwritten w10File {} w10Out (some ["A", "Source_File"])
     "merged_data_stack.csv" rfl rfl rfl rfl rfl (by decide)⟩

end MultiIQ
